import Mathlib

/-!
Verification of the BMS header directive model (`src/parser/src/header.rs`).

The source file declares the typed representation of the header directives:
the `Player`, `Rank`, `Difficulty` enums (with `strum` `FromRepr` derives and
`Default` impls), the scalar newtype fields (`Total`, `Volwav`, `PlayLevel`,
`ConstantBPM`, ...), the indexed directive families (`Wav`, `Bmp`, `ExBPM`,
`Stop`, `JudgeRankType::Exrank`) and the `Header` aggregate.  Machine floats
(`f32`/`f64`) are modelled as `ℚ`, Rust's unsigned/signed machine integers as
`ℕ`/`ℤ`, Rust `String`s as `List Char` (or codepoint lists where character
arithmetic matters).  Behaviour that the source only documents (the parse
routines, the indexed-table insertion policy, rank resolution and subtitle
extraction) is modelled from the spec; each such definition is marked
`Modelled from the spec:` in its doc comment.
-/

namespace Bmrs

/-- `#PLAYER [1-4]`. Defines the play side.  Variants in source order, so the
`repr(u8)` discriminants are One=0, Two=1, Three=2, Four=3. -/
inductive Player where
| One
| Two
| Three
| Four
deriving DecidableEq, Repr, Fintype

/-- `impl Default for Player` in the source: `Self::One`. -/
def Player.default : Player := Player.One

/-- Discriminant of a `Player` variant (`repr(u8)`, first variant 0). -/
def Player.toRepr : Player → ℕ
| Player.One => 0
| Player.Two => 1
| Player.Three => 2
| Player.Four => 3

/-- `strum` `FromRepr` derive on `Player`: `from_repr(n)` returns `Some` of
the variant whose discriminant is `n`, `None` otherwise. -/
def Player.fromRepr (n : ℕ) : Option Player :=
if n = 0 then some Player.One
else if n = 1 then some Player.Two
else if n = 2 then some Player.Three
else if n = 3 then some Player.Four
else none

/-- `#RANK [0-3]`. Judge difficulty, LR2 convention: discriminants
VeryHard=0, Hard=1, Normal=2, Easy=3. -/
inductive Rank where
| VeryHard
| Hard
| Normal
| Easy
deriving DecidableEq, Repr

/-- `impl Default for Rank` in the source: `Self::Normal` (LR2 convention). -/
def Rank.default : Rank := Rank.Normal

/-- Discriminant of a `Rank` variant. -/
def Rank.toRepr : Rank → ℕ
| Rank.VeryHard => 0
| Rank.Hard => 1
| Rank.Normal => 2
| Rank.Easy => 3

/-- `strum` `FromRepr` derive on `Rank`. -/
def Rank.fromRepr (n : ℕ) : Option Rank :=
if n = 0 then some Rank.VeryHard
else if n = 1 then some Rank.Hard
else if n = 2 then some Rank.Normal
else if n = 3 then some Rank.Easy
else none

/-- `#DIFFICULTY [1-5]`.  Variants in source order, discriminants
Beginner=0, Normal=1, Hyper=2, Another=3, Insane=4. -/
inductive Difficulty where
| Beginner
| Normal
| Hyper
| Another
| Insane
deriving DecidableEq, Repr

/-- Discriminant of a `Difficulty` variant. -/
def Difficulty.toRepr : Difficulty → ℕ
| Difficulty.Beginner => 0
| Difficulty.Normal => 1
| Difficulty.Hyper => 2
| Difficulty.Another => 3
| Difficulty.Insane => 4

/-- `strum` `FromRepr` derive on `Difficulty`. -/
def Difficulty.fromRepr (n : ℕ) : Option Difficulty :=
if n = 0 then some Difficulty.Beginner
else if n = 1 then some Difficulty.Normal
else if n = 2 then some Difficulty.Hyper
else if n = 3 then some Difficulty.Another
else if n = 4 then some Difficulty.Insane
else none

/-- `pub struct Total(f64)`: rate of gauge recovery. -/
structure Total where
val : ℚ
deriving DecidableEq

/-- `impl Default for Total` in the source: `Self(160.0)`. -/
def Total.default : Total := ⟨160⟩

/-- `pub struct Volwav(i32)`: flat volume multiplier. -/
structure Volwav where
val : ℤ
deriving DecidableEq

/-- Modelled from the spec: the source declares `Volwav` and its doc comment
says "Defaults to 100.", but no `impl Default for Volwav` is present in the
source; the default value 100 is taken from the spec's default table. -/
def Volwav.default : Volwav := ⟨100⟩

/-- `pub struct PlayLevel(u16)`: reported song difficulty. -/
structure PlayLevel where
val : ℕ
deriving DecidableEq

/-- `impl Default for PlayLevel` in the source: `PlayLevel(3)` (BM98 convention). -/
def PlayLevel.default : PlayLevel := ⟨3⟩

/-- `pub struct ConstantBPM(f32)`: the `#BPM n` scalar. -/
structure ConstantBPM where
val : ℚ
deriving DecidableEq

/-- `impl Default for ConstantBPM` in the source: `Self(130.0)` (spec default). -/
def ConstantBPM.default : ConstantBPM := ⟨130⟩

/-- `pub struct Header { player: Player }`: the header aggregate as declared
in the source.  Its only field is the `Player` scalar. -/
structure Header where
player : Player
deriving DecidableEq, Fintype

/-- `Total` wraps an `f64` (modelled as `ℚ`), so it has infinitely many
semantically distinct values. -/
instance : Infinite Total :=
Infinite.of_injective (fun q : ℚ => ⟨q⟩) (fun _ _ h => congrArg Total.val h)

/-! ## Identifiers

Modelled from the spec: an `Identifier` is a 2-character token over digits
`0-9` and letters `A-Z`, case-insensitive, canonicalized to uppercase.
Characters are modelled as natural-number Unicode codepoints (ASCII range for
the identifier alphabet), shared by all five indexed families. -/

/-- Modelled from the spec: uppercase canonicalization of one identifier
character (codepoint); lowercase ASCII letters `a`-`z` (97-122) map to
`A`-`Z` (65-90), everything else is unchanged. -/
def canonChar (c : ℕ) : ℕ := if 97 ≤ c ∧ c ≤ 122 then c - 32 else c

/-- Modelled from the spec: ASCII lowering of one character, the inverse
direction of `canonChar` on letters (used to state case-insensitivity). -/
def lowerChar (c : ℕ) : ℕ := if 65 ≤ c ∧ c ≤ 90 then c + 32 else c

/-- Modelled from the spec: the restricted identifier alphabet, digits
`0`-`9` (48-57) and letters `A`-`Z` (65-90) / `a`-`z` (97-122). -/
def validChar (c : ℕ) : Prop :=
(48 ≤ c ∧ c ≤ 57) ∨ (65 ≤ c ∧ c ≤ 90) ∨ (97 ≤ c ∧ c ≤ 122)

instance (c : ℕ) : Decidable (validChar c) := by
unfold validChar
infer_instance

/-- Modelled from the spec: an opaque 2-character identifier, stored in
canonical (uppercase) form. -/
structure Identifier where
c1 : ℕ
c2 : ℕ
deriving DecidableEq, Repr

/-- Modelled from the spec: build an `Identifier` from its two raw
characters, canonicalizing to uppercase. -/
def mkIdentifier (a b : ℕ) : Identifier := ⟨canonChar a, canonChar b⟩

/-! ## Diagnostics and scalar fields -/

/-- Modelled from the spec: the non-fatal diagnostics collected during the
parse (payloads other than the duplicated identifier are omitted from the
model). -/
inductive Diagnostic where
| UnknownDirective
| MalformedOperand
| DuplicateIndex (id : Identifier)
deriving DecidableEq, Repr

/-- Modelled from the spec: `ScalarField<T>`, a single named value with
states Unset, Explicit(T), Invalid(raw-text). -/
inductive ScalarField (T : Type) where
| Unset
| Explicit (t : T)
| Invalid (raw : List Char)
deriving DecidableEq

/-- Modelled from the spec: finalization substitutes the field's documented
default when the field is Unset or Invalid; an Explicit value is kept. -/
def finalizeField {T : Type} (f : ScalarField T) (d : T) : T :=
match f with
| ScalarField.Explicit t => t
| ScalarField.Unset => d
| ScalarField.Invalid _ => d

/-- Modelled from the spec: an enum-valued field parses its operand as an
integer ordinal and maps it through a fixed lookup; an ordinal outside the
valid range records `MalformedOperand` and leaves the field as it was
(treated as Unset). -/
def parseEnumOperand {T : Type} (lookup : ℕ → Option T)
    (f : ScalarField T) (n : ℕ) : ScalarField T × List Diagnostic :=
match lookup n with
| some v => (ScalarField.Explicit v, [])
| none => (f, [Diagnostic.MalformedOperand])

/-- Modelled from the spec: the fixed ordinal lookup for `#PLAYER`,
documented operand range 1-4 (`1 ↦ One`, ..., `4 ↦ Four`). -/
def playerLookup (n : ℕ) : Option Player :=
if n = 0 then none else Player.fromRepr (n - 1)

/-- Modelled from the spec: the fixed ordinal lookup for `#RANK`, documented
operand range 0-3, matching the discriminants directly. -/
def rankLookup (n : ℕ) : Option Rank := Rank.fromRepr n

/-- Modelled from the spec: the fixed ordinal lookup for `#DIFFICULTY`,
documented operand range 1-5 (`1 ↦ Beginner`, ..., `5 ↦ Insane`). -/
def difficultyLookup (n : ℕ) : Option Difficulty :=
if n = 0 then none else Difficulty.fromRepr (n - 1)

/-! ## Judge rank resolution -/

/-- Base judge half-windows in milliseconds for the four `Rank` values, from
the source comments: VeryHard ±8ms, Hard ±15ms, Normal ±18ms, Easy ±21ms. -/
def rankWindow : Rank → ℚ
| Rank.VeryHard => 8
| Rank.Hard => 15
| Rank.Normal => 18
| Rank.Easy => 21

/-- DefExRank/ExRank percentage semantics, from the source comments on
`JudgeRankType`: a percentage `p` means `p`% of RANK 2 (Normal, 18ms), so
the half-window is `18ms * (p / 100)`. -/
def exWindow (p : ℚ) : ℚ := 18 * (p / 100)

/-- Modelled from the spec: the chart-wide baseline window; a `#DEFEXRANK`
directive, when present, overrides the global rank's window with
`18ms * (percentage / 100)`. -/
def baselineWindow (g : Rank) (defEx : Option ℚ) : ℚ :=
match defEx with
| some p => exWindow p
| none => rankWindow g

/-- Modelled from the spec: `effective_window` over a timeline of ExRank
events.  Chart positions are naturals in 192nds of a measure; `events` lists
`(position, stored percentage)` pairs in ascending position order.  The
window starts at `base`; each event whose position has been reached (a
rank change at the exact query position already applies, per the spec's
tie-break) replaces it with `exWindow` of its percentage, and the last such
event's window stays in force — there is no reset of any kind between
events, in particular none at a measure boundary. -/
def effectiveWindowAt (base : ℚ) : List (ℕ × ℚ) → ℕ → ℚ
| [], _ => base
| e :: rest, t => if e.1 ≤ t then effectiveWindowAt (exWindow e.2) rest t else base

/-- A chart position's measure number: positions count 192nds of a measure. -/
def measureOf (pos : ℕ) : ℕ := pos / 192

/-! ## Indexed tables -/

/-- Modelled from the spec: `IndexedTable<V>`, a mapping from `Identifier`
to `V`, one per family; represented as the list of definitions in the order
they were inserted. -/
abbrev IndexedTable (V : Type) : Type := List (Identifier × V)

/-- Modelled from the spec: lookup by `Identifier`, returning the live
(first-inserted) value for the key. -/
def tableLookup {V : Type} : IndexedTable V → Identifier → Option V
| [], _ => none
| e :: rest, k => if e.1 = k then some e.2 else tableLookup rest k

/-- Modelled from the spec: table insertion.  Inserting at an `Identifier`
already present is a conflict resolved first-definition-wins: the later
duplicate is discarded and one `DuplicateIndex` diagnostic is emitted.
Otherwise the definition is added with no diagnostic. -/
def tableInsert {V : Type} (t : IndexedTable V) (k : Identifier) (v : V) :
    IndexedTable V × List Diagnostic :=
match tableLookup t k with
| some _ => (t, [Diagnostic.DuplicateIndex k])
| none => (t ++ [(k, v)], [])

/-- `#WAV[00-ZZ] filename`: the WAV family table. -/
abbrev WavTable : Type := IndexedTable (List Char)

/-- `#BMP[00-ZZ] filename`: the BMP family table. -/
abbrev BmpTable : Type := IndexedTable (List Char)

/-- `#BPMxx n` / `#EXBPM[01-ZZ] n`: the extended-BPM family table (signed,
negative BPM permitted). -/
abbrev ExBpmTable : Type := IndexedTable ℚ

/-- `#STOP[01-ZZ] n`: the STOP family table (non-negative 192nd-note
durations). -/
abbrev StopTable : Type := IndexedTable ℕ

/-- `#EXRANK[01-ZZ] n`: the EXRANK family table (percentage of the Normal
window). -/
abbrev ExRankTable : Type := IndexedTable ℚ

/-! ## STOP operand parsing -/

/-- Modelled from the spec: a `#STOPxx` operand is stored as a non-negative
integer count of 192nds of a measure, with any fractional part truncated
toward zero before storage (for a non-negative operand, truncation toward
zero is the floor).  A negative operand defines no duration here (the source
comments: "Generally, it's ignored"). -/
def parseStop (q : ℚ) : Option ℕ :=
if 0 ≤ q then some (Int.floor q).toNat else none

/-! ## Subtitle extraction

Modelled from the spec: the source supports full-width tilde and double
quote marks only as implicit-subtitle delimiters; the extractor runs only
when no explicit non-empty `#SUBTITLE` exists.  Titles are modelled as
`List Char`. -/

/-- Modelled from the spec: the recognized implicit-subtitle delimiters —
full-width tilde `～`, straight double quote, full-width double quote.
Each delimiter closes with the same character that opens it. -/
def isDelim (c : Char) : Bool := c = '～' || c = '"' || c = '＂'

/-- Split a character list at the first occurrence of `c`, returning the
parts strictly before and strictly after it. -/
def splitAtFirst (c : Char) : List Char → Option (List Char × List Char)
| [] => none
| a :: as =>
  if a = c then some ([], as)
  else (splitAtFirst c as).map (fun p => (a :: p.1, p.2))

/-- Split a character list at the last occurrence of `c` (right-to-left
scan), returning the parts strictly before and strictly after it. -/
def splitAtLast (c : Char) (l : List Char) : Option (List Char × List Char) :=
match splitAtFirst c l.reverse with
| some p => some (p.2.reverse, p.1.reverse)
| none => none

/-- Modelled from the spec: scan the finalized title right-to-left for the
last occurrence of a delimiter pair wrapping a trailing span: the title must
end with a recognized delimiter, and the matching opener is the last earlier
occurrence of that same delimiter; on a match, return the part before the
opener (the new title) and the delimited span with delimiters stripped. -/
def extractImplicit (title : List Char) : Option (List Char × List Char) :=
match title.getLast? with
| none => none
| some d => if isDelim d then splitAtLast d title.dropLast else none

/-- Modelled from the spec: derive `TitleParts` from the raw title and
subtitle fields.  A non-empty explicit subtitle is used verbatim with no
extraction; otherwise the implicit extractor runs, and with no match the
title is unchanged and the subtitle empty (`none`). -/
def titleParts (title sub : List Char) : List Char × Option (List Char) :=
if sub = [] then
  match extractImplicit title with
  | some p => (p.1, some p.2)
  | none => (title, none)
else (title, some sub)

/-! ## Theorems -/

/-- C10: the ordinal-to-variant conversions are total on the operand domain
with discriminants starting at 0: `Player.fromRepr n` is `some` of the
variant with discriminant `n` for `n ≤ 3` (0 ↦ One, 3 ↦ Four) and `none`
for every `n ≥ 4`; `Difficulty.fromRepr n` is `some` for `n ≤ 4`
(0 ↦ Beginner, 4 ↦ Insane) and `none` for every `n ≥ 5`.  Both are total
Lean functions, so neither conversion can panic. -/
theorem player_difficulty_fromRepr_exact :
    (∀ n : ℕ, n ≤ 3 → ∃ v : Player, Player.fromRepr n = some v ∧ v.toRepr = n) ∧
    (∀ n : ℕ, 4 ≤ n → Player.fromRepr n = none) ∧
    Player.fromRepr 0 = some Player.One ∧
    Player.fromRepr 3 = some Player.Four ∧
    (∀ n : ℕ, n ≤ 4 → ∃ v : Difficulty, Difficulty.fromRepr n = some v ∧ v.toRepr = n) ∧
    (∀ n : ℕ, 5 ≤ n → Difficulty.fromRepr n = none) ∧
    Difficulty.fromRepr 0 = some Difficulty.Beginner ∧
    Difficulty.fromRepr 4 = some Difficulty.Insane := by
refine ⟨?_, ?_, rfl, by decide, ?_, ?_, rfl, by decide⟩
· intro n hn
  interval_cases n
  · exact ⟨Player.One, rfl, rfl⟩
  · exact ⟨Player.Two, by decide, rfl⟩
  · exact ⟨Player.Three, by decide, rfl⟩
  · exact ⟨Player.Four, by decide, rfl⟩
· intro n hn
  have h0 : ¬ n = 0 := by omega
  have h1 : ¬ n = 1 := by omega
  have h2 : ¬ n = 2 := by omega
  have h3 : ¬ n = 3 := by omega
  simp [Player.fromRepr, h0, h1, h2, h3]
· intro n hn
  interval_cases n
  · exact ⟨Difficulty.Beginner, rfl, rfl⟩
  · exact ⟨Difficulty.Normal, by decide, rfl⟩
  · exact ⟨Difficulty.Hyper, by decide, rfl⟩
  · exact ⟨Difficulty.Another, by decide, rfl⟩
  · exact ⟨Difficulty.Insane, by decide, rfl⟩
· intro n hn
  have h0 : ¬ n = 0 := by omega
  have h1 : ¬ n = 1 := by omega
  have h2 : ¬ n = 2 := by omega
  have h3 : ¬ n = 3 := by omega
  have h4 : ¬ n = 4 := by omega
  simp [Difficulty.fromRepr, h0, h1, h2, h3, h4]

/-- Witness for C10 at concrete ordinals 3, 7 (Player) and 4, 9 (Difficulty). -/
theorem player_difficulty_fromRepr_exact_witness :
    ((3 : ℕ) ≤ 3 ∧ (Player.fromRepr 3).isSome = true) ∧
    ((4 : ℕ) ≤ 7 ∧ Player.fromRepr 7 = none) ∧
    ((4 : ℕ) ≤ 4 ∧ (Difficulty.fromRepr 4).isSome = true) ∧
    ((5 : ℕ) ≤ 9 ∧ Difficulty.fromRepr 9 = none) :=
⟨⟨by decide, by
   rcases player_difficulty_fromRepr_exact.1 3 (by decide) with ⟨v, hv, _⟩
   rw [hv]; rfl⟩,
 ⟨by decide, player_difficulty_fromRepr_exact.2.1 7 (by decide)⟩,
 ⟨by decide, by
   rcases player_difficulty_fromRepr_exact.2.2.2.2.1 4 (by decide) with ⟨v, hv, _⟩
   rw [hv]; rfl⟩,
 ⟨by decide, player_difficulty_fromRepr_exact.2.2.2.2.2.1 9 (by decide)⟩⟩

/-- C1: the base half-windows are VeryHard=8ms, Hard=15ms, Normal=18ms,
Easy=21ms; every DefExRank/ExRank percentage `p` yields an effective window
of `18ms * (p/100)` — the Normal window scaled, regardless of which
`GlobalRank` is active (the fired ExRank window does not depend on the
global rank `g`); with `#RANK 2` an ExRank of 48 in force gives 8.64ms
(216/25) and one of 100 gives 18ms. -/
theorem effective_window_percentages :
    (rankWindow Rank.VeryHard = 8 ∧ rankWindow Rank.Hard = 15 ∧
     rankWindow Rank.Normal = 18 ∧ rankWindow Rank.Easy = 21) ∧
    (∀ p : ℚ, exWindow p = rankWindow Rank.Normal * (p / 100)) ∧
    (∀ (g : Rank) (pos t : ℕ) (p : ℚ), pos ≤ t →
      effectiveWindowAt (rankWindow g) [(pos, p)] t = exWindow p) ∧
    (∀ (g : Rank) (p : ℚ), baselineWindow g (some p) = exWindow p) ∧
    exWindow 48 = 216 / 25 ∧ exWindow 100 = 18 := by
refine ⟨⟨rfl, rfl, rfl, rfl⟩, fun p => rfl, ?_, fun g p => rfl, ?_, ?_⟩
· intro g pos t p h
  simp [effectiveWindowAt, h]
· norm_num [exWindow]
· norm_num [exWindow]

/-- Witness for C1: with global `#RANK 2` (Normal) and an ExRank event of
48% fired at position 0, the window at position 5 is `exWindow 48`. -/
theorem effective_window_percentages_witness :
    (0 : ℕ) ≤ 5 ∧
    effectiveWindowAt (rankWindow Rank.Normal) [(0, 48)] 5 = exWindow 48 :=
⟨by decide, effective_window_percentages.2.2.1 Rank.Normal 0 5 48 (by decide)⟩

/-- C4: finalization substitutes the documented default for an absent
(Unset) or malformed (Invalid, treated as Unset) scalar field:
Player = One, Rank = Normal (18ms baseline), Total = 160.0, PlayLevel = 3,
constant-BPM = 130.0, Volwav = 100. -/
theorem finalize_defaults :
    finalizeField ScalarField.Unset Player.default = Player.One ∧
    (∀ raw : List Char, finalizeField (ScalarField.Invalid raw) Player.default = Player.One) ∧
    finalizeField ScalarField.Unset Rank.default = Rank.Normal ∧
    rankWindow (finalizeField ScalarField.Unset Rank.default) = 18 ∧
    (finalizeField ScalarField.Unset Total.default).val = 160 ∧
    (finalizeField ScalarField.Unset PlayLevel.default).val = 3 ∧
    (finalizeField ScalarField.Unset ConstantBPM.default).val = 130 ∧
    (finalizeField ScalarField.Unset Volwav.default).val = 100 ∧
    (∀ (T : Type) (d : T), finalizeField ScalarField.Unset d = d) ∧
    (∀ (T : Type) (d : T) (raw : List Char),
      finalizeField (ScalarField.Invalid raw) d = d) :=
⟨rfl, fun _ => rfl, rfl, rfl, rfl, rfl, rfl, rfl,
 fun _ _ => rfl, fun _ _ _ => rfl⟩

/-- C2: each enum-valued scalar field maps an in-range integer ordinal to a
variant through its fixed lookup (Player 1-4, Rank 0-3, Difficulty 1-5) with
no diagnostic, and every out-of-range ordinal yields `MalformedOperand` with
the field left Unset — never a clamped or partial value (and the functions
are total, so no panic). -/
theorem enum_ordinal_parse_ranges :
    (∀ n : ℕ, 1 ≤ n → n ≤ 4 → ∃ v : Player,
      parseEnumOperand playerLookup ScalarField.Unset n = (ScalarField.Explicit v, [])) ∧
    (∀ n : ℕ, ¬(1 ≤ n ∧ n ≤ 4) →
      parseEnumOperand playerLookup ScalarField.Unset n =
        (ScalarField.Unset, [Diagnostic.MalformedOperand])) ∧
    (∀ n : ℕ, n ≤ 3 → ∃ v : Rank,
      parseEnumOperand rankLookup ScalarField.Unset n = (ScalarField.Explicit v, [])) ∧
    (∀ n : ℕ, 4 ≤ n →
      parseEnumOperand rankLookup ScalarField.Unset n =
        (ScalarField.Unset, [Diagnostic.MalformedOperand])) ∧
    (∀ n : ℕ, 1 ≤ n → n ≤ 5 → ∃ v : Difficulty,
      parseEnumOperand difficultyLookup ScalarField.Unset n = (ScalarField.Explicit v, [])) ∧
    (∀ n : ℕ, ¬(1 ≤ n ∧ n ≤ 5) →
      parseEnumOperand difficultyLookup ScalarField.Unset n =
        (ScalarField.Unset, [Diagnostic.MalformedOperand])) := by
refine ⟨?_, ?_, ?_, ?_, ?_, ?_⟩
· intro n h1 h4
  interval_cases n
  · exact ⟨Player.One, by decide⟩
  · exact ⟨Player.Two, by decide⟩
  · exact ⟨Player.Three, by decide⟩
  · exact ⟨Player.Four, by decide⟩
· intro n hn
  rcases Nat.eq_zero_or_pos n with h0 | h0
  · subst h0; decide
  · have h5 : 5 ≤ n := by omega
    have e0 : ¬ n = 0 := by omega
    have e1 : ¬ n - 1 = 0 := by omega
    have e2 : ¬ n - 1 = 1 := by omega
    have e3 : ¬ n - 1 = 2 := by omega
    have e4 : ¬ n - 1 = 3 := by omega
    simp [parseEnumOperand, playerLookup, Player.fromRepr, e0, e1, e2, e3, e4]
· intro n hn
  interval_cases n
  · exact ⟨Rank.VeryHard, by decide⟩
  · exact ⟨Rank.Hard, by decide⟩
  · exact ⟨Rank.Normal, by decide⟩
  · exact ⟨Rank.Easy, by decide⟩
· intro n hn
  have e0 : ¬ n = 0 := by omega
  have e1 : ¬ n = 1 := by omega
  have e2 : ¬ n = 2 := by omega
  have e3 : ¬ n = 3 := by omega
  simp [parseEnumOperand, rankLookup, Rank.fromRepr, e0, e1, e2, e3]
· intro n h1 h5
  interval_cases n
  · exact ⟨Difficulty.Beginner, by decide⟩
  · exact ⟨Difficulty.Normal, by decide⟩
  · exact ⟨Difficulty.Hyper, by decide⟩
  · exact ⟨Difficulty.Another, by decide⟩
  · exact ⟨Difficulty.Insane, by decide⟩
· intro n hn
  rcases Nat.eq_zero_or_pos n with h0 | h0
  · subst h0; decide
  · have h6 : 6 ≤ n := by omega
    have e0 : ¬ n = 0 := by omega
    have e1 : ¬ n - 1 = 0 := by omega
    have e2 : ¬ n - 1 = 1 := by omega
    have e3 : ¬ n - 1 = 2 := by omega
    have e4 : ¬ n - 1 = 3 := by omega
    have e5 : ¬ n - 1 = 4 := by omega
    simp [parseEnumOperand, difficultyLookup, Difficulty.fromRepr, e0, e1, e2, e3, e4, e5]

/-- Witness for C2 at concrete ordinals: Player 2 (in range) and 5 (out of
range), Rank 3 and 4, Difficulty 5 and 6. -/
theorem enum_ordinal_parse_ranges_witness :
    ((1 : ℕ) ≤ 2 ∧ (2 : ℕ) ≤ 4 ∧
      (parseEnumOperand playerLookup ScalarField.Unset 2).2 = []) ∧
    (¬((1 : ℕ) ≤ 5 ∧ (5 : ℕ) ≤ 4) ∧
      parseEnumOperand playerLookup ScalarField.Unset 5 =
        (ScalarField.Unset, [Diagnostic.MalformedOperand])) ∧
    ((3 : ℕ) ≤ 3 ∧ (parseEnumOperand rankLookup ScalarField.Unset 3).2 = []) ∧
    ((4 : ℕ) ≤ 4 ∧
      parseEnumOperand rankLookup ScalarField.Unset 4 =
        (ScalarField.Unset, [Diagnostic.MalformedOperand])) ∧
    ((1 : ℕ) ≤ 5 ∧ (5 : ℕ) ≤ 5 ∧
      (parseEnumOperand difficultyLookup ScalarField.Unset 5).2 = []) ∧
    (¬((1 : ℕ) ≤ 6 ∧ (6 : ℕ) ≤ 5) ∧
      parseEnumOperand difficultyLookup ScalarField.Unset 6 =
        (ScalarField.Unset, [Diagnostic.MalformedOperand])) :=
⟨⟨by decide, by decide, by
   rcases enum_ordinal_parse_ranges.1 2 (by decide) (by decide) with ⟨v, hv⟩
   rw [hv]⟩,
 ⟨by decide, enum_ordinal_parse_ranges.2.1 5 (by decide)⟩,
 ⟨by decide, by
   rcases enum_ordinal_parse_ranges.2.2.1 3 (by decide) with ⟨v, hv⟩
   rw [hv]⟩,
 ⟨by decide, enum_ordinal_parse_ranges.2.2.2.1 4 (by decide)⟩,
 ⟨by decide, by decide, by
   rcases enum_ordinal_parse_ranges.2.2.2.2.1 5 (by decide) (by decide) with ⟨v, hv⟩
   rw [hv]⟩,
 ⟨by decide, enum_ordinal_parse_ranges.2.2.2.2.2 6 (by decide)⟩⟩

/-- Uppercase canonicalization is idempotent on every codepoint. -/
lemma canonChar_idem (c : ℕ) : canonChar (canonChar c) = canonChar c := by
unfold canonChar
split_ifs <;> omega

/-- Canonicalization identifies a character with its lowered form. -/
lemma canonChar_lower (c : ℕ) : canonChar (lowerChar c) = canonChar c := by
unfold canonChar lowerChar
split_ifs <;> omega

/-- C9: over the valid identifier alphabet, canonicalization is idempotent
(canonicalizing a canonical form changes nothing) and case-insensitive
(`Identifier("aa") = Identifier("AA")`), and two Identifiers are equal iff
their canonical forms match.  All five indexed families share this
`Identifier` type as their table key. -/
theorem identifier_canonical_equality :
    (∀ a b : ℕ, validChar a → validChar b →
      mkIdentifier (canonChar a) (canonChar b) = mkIdentifier a b) ∧
    (∀ a b : ℕ, validChar a → validChar b →
      mkIdentifier (lowerChar a) (lowerChar b) = mkIdentifier a b) ∧
    (∀ a b c d : ℕ, mkIdentifier a b = mkIdentifier c d ↔
      (canonChar a = canonChar c ∧ canonChar b = canonChar d)) ∧
    mkIdentifier 97 97 = mkIdentifier 65 65 := by
refine ⟨?_, ?_, ?_, by decide⟩
· intro a b _ _
  simp [mkIdentifier, canonChar_idem]
· intro a b _ _
  simp [mkIdentifier, canonChar_lower]
· intro a b c d
  simp [mkIdentifier, Identifier.mk.injEq]

/-- Witness for C9 at the concrete tokens `aa` (97 97) and `AA` (65 65). -/
theorem identifier_canonical_equality_witness :
    validChar 97 ∧ validChar 65 ∧
    mkIdentifier (lowerChar 65) (lowerChar 65) = mkIdentifier 65 65 ∧
    mkIdentifier (canonChar 97) (canonChar 97) = mkIdentifier 97 97 :=
⟨by decide, by decide,
 identifier_canonical_equality.2.1 65 65 (by decide) (by decide),
 identifier_canonical_equality.1 97 97 (by decide) (by decide)⟩

/-- C5: for any indexed family (the table is generic in its value type, so
this covers WAV, BMP, extended-BPM, STOP and EXRANK alike), inserting at an
`Identifier` already present leaves the table unchanged — lookup still
returns the first-inserted value — and emits exactly the one
`DuplicateIndex` diagnostic for that insertion. -/
theorem duplicate_index_first_wins :
    ∀ (V : Type) (t : IndexedTable V) (k : Identifier) (v w : V),
      tableLookup t k = some w →
      tableInsert t k v = (t, [Diagnostic.DuplicateIndex k]) ∧
      tableLookup (tableInsert t k v).1 k = some w ∧
      (tableInsert t k v).2 = [Diagnostic.DuplicateIndex k] := by
intro V t k v w h
have hi : tableInsert t k v = (t, [Diagnostic.DuplicateIndex k]) := by
  unfold tableInsert
  rw [h]
refine ⟨hi, ?_, ?_⟩
· rw [hi]
  exact h
· rw [hi]

/-- Witness for C5 on all five families: a one-entry table per family, a
duplicate insertion at its key (`0A`, codepoints 48 65), the table kept and
one `DuplicateIndex` diagnostic. -/
theorem duplicate_index_first_wins_witness :
    (tableLookup ([(mkIdentifier 48 65, ['a', '.', 'w', 'a', 'v'])] : WavTable)
        (mkIdentifier 48 65) = some ['a', '.', 'w', 'a', 'v'] ∧
      tableInsert ([(mkIdentifier 48 65, ['a', '.', 'w', 'a', 'v'])] : WavTable)
        (mkIdentifier 48 65) ['b', '.', 'w', 'a', 'v'] =
        ([(mkIdentifier 48 65, ['a', '.', 'w', 'a', 'v'])],
         [Diagnostic.DuplicateIndex (mkIdentifier 48 65)])) ∧
    (tableInsert ([(mkIdentifier 48 65, ['a', '.', 'b', 'm', 'p'])] : BmpTable)
        (mkIdentifier 48 65) ['b', '.', 'b', 'm', 'p'] =
        ([(mkIdentifier 48 65, ['a', '.', 'b', 'm', 'p'])],
         [Diagnostic.DuplicateIndex (mkIdentifier 48 65)])) ∧
    (tableInsert ([(mkIdentifier 48 65, (256 : ℚ))] : ExBpmTable)
        (mkIdentifier 48 65) 155 =
        ([(mkIdentifier 48 65, (256 : ℚ))],
         [Diagnostic.DuplicateIndex (mkIdentifier 48 65)])) ∧
    (tableInsert ([(mkIdentifier 48 65, (96 : ℕ))] : StopTable)
        (mkIdentifier 48 65) 48 =
        ([(mkIdentifier 48 65, (96 : ℕ))],
         [Diagnostic.DuplicateIndex (mkIdentifier 48 65)])) ∧
    (tableInsert ([(mkIdentifier 48 65, (48 : ℚ))] : ExRankTable)
        (mkIdentifier 48 65) 100 =
        ([(mkIdentifier 48 65, (48 : ℚ))],
         [Diagnostic.DuplicateIndex (mkIdentifier 48 65)])) :=
⟨⟨by simp [tableLookup],
  (duplicate_index_first_wins _ _ _ ['b', '.', 'w', 'a', 'v']
    ['a', '.', 'w', 'a', 'v'] (by simp [tableLookup])).1⟩,
 (duplicate_index_first_wins _ _ _ ['b', '.', 'b', 'm', 'p']
   ['a', '.', 'b', 'm', 'p'] (by simp [tableLookup])).1,
 (duplicate_index_first_wins _ _ _ 155 256 (by simp [tableLookup])).1,
 (duplicate_index_first_wins _ _ _ 48 96 (by simp [tableLookup])).1,
 (duplicate_index_first_wins _ _ _ 100 48 (by simp [tableLookup])).1⟩

/-- A window query strictly before every listed event sees the base window. -/
lemma effectiveWindowAt_of_unfired (base : ℚ) (l : List (ℕ × ℚ)) (t : ℕ)
    (h : ∀ e ∈ l, t < e.1) : effectiveWindowAt base l t = base := by
cases l with
| nil => rfl
| cons e rest =>
  have he := h e (List.mem_cons_self e rest)
  simp [effectiveWindowAt, show ¬ e.1 ≤ t by omega]

/-- C3: once an ExRank event fires, the window it sets stays in force until
the next ExRank event fires later in the chart, and the effective window
never changes on an event-free stretch — in particular it does not revert
at a measure boundary (the statement places no measure condition on the
positions, so it holds across any number of measure boundaries; the witness
crosses one). -/
theorem exrank_window_persistence :
    (∀ (base : ℚ) (events : List (ℕ × ℚ)) (t₁ t₂ : ℕ),
      t₁ ≤ t₂ → (∀ e ∈ events, e.1 ≤ t₁ ∨ t₂ < e.1) →
      effectiveWindowAt base events t₁ = effectiveWindowAt base events t₂) ∧
    (∀ (base : ℚ) (pre : List (ℕ × ℚ)) (p : ℕ) (r : ℚ)
        (post : List (ℕ × ℚ)) (t : ℕ),
      (∀ e ∈ pre, e.1 ≤ t) → p ≤ t → (∀ e ∈ post, t < e.1) →
      effectiveWindowAt base (pre ++ (p, r) :: post) t = exWindow r) := by
constructor
· intro base events t₁ t₂ h12
  induction events generalizing base with
  | nil => intro _; rfl
  | cons e rest ih =>
    intro hev
    rcases hev e (List.mem_cons_self e rest) with he | he
    · have he2 : e.1 ≤ t₂ := le_trans he h12
      simp only [effectiveWindowAt, if_pos he, if_pos he2]
      exact ih _ fun x hx => hev x (List.mem_cons_of_mem e hx)
    · have h1 : ¬ e.1 ≤ t₁ := by omega
      have h2 : ¬ e.1 ≤ t₂ := by omega
      simp only [effectiveWindowAt, if_neg h1, if_neg h2]
· intro base pre p r post t
  induction pre generalizing base with
  | nil =>
    intro _ hp hpost
    simp only [List.nil_append, effectiveWindowAt, if_pos hp]
    exact effectiveWindowAt_of_unfired _ post t hpost
  | cons a as ih =>
    intro hpre hp hpost
    have ha : a.1 ≤ t := hpre a (List.mem_cons_self a as)
    simp only [List.cons_append, effectiveWindowAt, if_pos ha]
    exact ih _ (fun x hx => hpre x (List.mem_cons_of_mem a hx)) hp hpost

/-- Witness for C3: ExRank 48% fires at position 100 (measure 0), the next
event is at position 600 (measure 3); at position 500 — two measure
boundaries after the firing — the window is still `exWindow 48`. -/
theorem exrank_window_persistence_witness :
    (100 : ℕ) ≤ 500 ∧ measureOf 100 = 0 ∧ measureOf 500 = 2 ∧
    effectiveWindowAt (rankWindow Rank.Normal) [(100, 48), (600, 100)] 500 =
      exWindow 48 :=
⟨by decide, rfl, rfl,
 exrank_window_persistence.2 (rankWindow Rank.Normal) [] 100 48 [(600, 100)] 500
   (fun e he => absurd he (List.not_mem_nil e))
   (by decide)
   (fun e he => by
     rw [List.mem_singleton] at he
     subst he
     decide)⟩

/-- C7: a non-negative STOP operand is stored as the non-negative integer
(in 192nds of a measure) obtained by truncating the operand toward zero:
the stored `n` satisfies `n ≤ q < n + 1`. -/
theorem stop_operand_truncation :
    ∀ q : ℚ, 0 ≤ q →
      parseStop q = some (Int.floor q).toNat ∧
      (((Int.floor q).toNat : ℚ) ≤ q ∧ q < ((Int.floor q).toNat : ℚ) + 1) := by
intro q hq
have h0 : (0 : ℤ) ≤ Int.floor q := Int.floor_nonneg.mpr hq
have hc : (((Int.floor q).toNat : ℕ) : ℚ) = ((Int.floor q : ℤ) : ℚ) := by
  exact_mod_cast Int.toNat_of_nonneg h0
refine ⟨by simp [parseStop, hq], ?_, ?_⟩
· rw [hc]
  exact Int.floor_le q
· rw [hc]
  exact Int.lt_floor_add_one q

/-- Witness for C7 at the spec's example operand 96.7 (= 967/10): the
stored duration is exactly 96, the fractional part truncated. -/
theorem stop_operand_truncation_witness :
    (0 : ℚ) ≤ 967 / 10 ∧
    parseStop (967 / 10) = some (Int.floor (967 / 10 : ℚ)).toNat ∧
    parseStop (967 / 10) = some 96 := by
have hf : Int.floor (967 / 10 : ℚ) = 96 := by
  rw [Int.floor_eq_iff]
  constructor <;> norm_num
refine ⟨by norm_num, (stop_operand_truncation (967 / 10) (by norm_num)).1, ?_⟩
rw [(stop_operand_truncation (967 / 10) (by norm_num)).1, hf]
rfl

/-- `splitAtFirst` finds nothing when the character does not occur. -/
lemma splitAtFirst_of_not_mem (c : Char) (l : List Char) (h : c ∉ l) :
    splitAtFirst c l = none := by
induction l with
| nil => rfl
| cons a as ih =>
  have ha : ¬ a = c := by
    intro e
    subst e
    exact h (List.mem_cons_self a as)
  simp [splitAtFirst, ha, ih fun hc => h (List.mem_cons_of_mem a hc)]

/-- `splitAtFirst` splits at the first occurrence of the character. -/
lemma splitAtFirst_append_cons (c : Char) (xs ys : List Char) (h : c ∉ xs) :
    splitAtFirst c (xs ++ c :: ys) = some (xs, ys) := by
induction xs with
| nil => simp [splitAtFirst]
| cons a as ih =>
  have ha : ¬ a = c := by
    intro e
    subst e
    exact h (List.mem_cons_self a as)
  simp [splitAtFirst, ha, ih fun hc => h (List.mem_cons_of_mem a hc)]

/-- `splitAtLast` splits at the last occurrence of the character. -/
lemma splitAtLast_append_cons (c : Char) (p m : List Char) (h : c ∉ m) :
    splitAtLast c (p ++ c :: m) = some (p, m) := by
unfold splitAtLast
have hrev : (p ++ c :: m).reverse = m.reverse ++ c :: p.reverse := by
  simp
rw [hrev, splitAtFirst_append_cons c m.reverse p.reverse (by simpa using h)]
simp

/-- `splitAtLast` finds nothing when the character does not occur. -/
lemma splitAtLast_of_not_mem (c : Char) (l : List Char) (h : c ∉ l) :
    splitAtLast c l = none := by
unfold splitAtLast
rw [splitAtFirst_of_not_mem c l.reverse (by simpa using h)]

/-- C8: a non-empty explicit subtitle is used verbatim with no extraction;
otherwise a title ending in a recognized delimiter is split at the last
earlier occurrence of that delimiter — the part before it becomes the
title and the delimited trailing span, delimiters stripped, the subtitle
(the opener is the last occurrence even when the prefix `p` contains the
delimiter as well); a title whose final character is not a recognized
delimiter, or with no earlier matching delimiter, is left unchanged with no
subtitle. -/
theorem subtitle_extraction_contract :
    (∀ t s : List Char, s ≠ [] → titleParts t s = (t, some s)) ∧
    (∀ (p m : List Char) (d : Char), isDelim d = true → d ∉ m →
      titleParts (p ++ d :: (m ++ [d])) [] = (p, some m)) ∧
    (∀ (t : List Char) (d : Char), isDelim d = true → d ∉ t →
      titleParts (t ++ [d]) [] = (t ++ [d], none)) ∧
    (∀ (t : List Char) (c : Char), t.getLast? = some c → isDelim c = false →
      titleParts t [] = (t, none)) ∧
    titleParts [] [] = ([], none) := by
refine ⟨?_, ?_, ?_, ?_, rfl⟩
· intro t s hs
  simp [titleParts, hs]
· intro p m d hd hm
  have he : extractImplicit (p ++ d :: (m ++ [d])) = some (p, m) := by
    rw [show p ++ d :: (m ++ [d]) = (p ++ d :: m) ++ [d] by simp]
    unfold extractImplicit
    rw [List.getLast?_concat, List.dropLast_concat]
    simp [hd, splitAtLast_append_cons d p m hm]
  simp [titleParts, he]
· intro t d hd hdm
  have he : extractImplicit (t ++ [d]) = none := by
    unfold extractImplicit
    rw [List.getLast?_concat, List.dropLast_concat]
    simp [hd, splitAtLast_of_not_mem d t hdm]
  simp [titleParts, he]
· intro t c hc hcd
  simp [titleParts, extractImplicit, hc, hcd]

/-- Witness for C8: the spec's example `Fragment～Reconstruction～` splits
into title `Fragment` and subtitle `Reconstruction`; an explicit subtitle is
kept verbatim; `Plain` has no trailing delimiter and is unchanged. -/
theorem subtitle_extraction_contract_witness :
    ((['S'] : List Char) ≠ [] ∧
      titleParts ['T'] ['S'] = (['T'], some ['S'])) ∧
    (isDelim '～' = true ∧
      '～' ∉ (['R', 'e', 'c', 'o', 'n', 's', 't', 'r', 'u', 'c', 't', 'i', 'o', 'n'] : List Char) ∧
      titleParts
        (['F', 'r', 'a', 'g', 'm', 'e', 'n', 't'] ++ '～' ::
          (['R', 'e', 'c', 'o', 'n', 's', 't', 'r', 'u', 'c', 't', 'i', 'o', 'n'] ++ ['～'])) [] =
        (['F', 'r', 'a', 'g', 'm', 'e', 'n', 't'],
         some ['R', 'e', 'c', 'o', 'n', 's', 't', 'r', 'u', 'c', 't', 'i', 'o', 'n'])) ∧
    ((['P', 'l', 'a', 'i', 'n'] : List Char).getLast? = some 'n' ∧
      isDelim 'n' = false ∧
      titleParts ['P', 'l', 'a', 'i', 'n'] [] = (['P', 'l', 'a', 'i', 'n'], none)) :=
⟨⟨by decide, subtitle_extraction_contract.1 ['T'] ['S'] (by decide)⟩,
 ⟨by decide, by decide,
  subtitle_extraction_contract.2.1 ['F', 'r', 'a', 'g', 'm', 'e', 'n', 't']
    ['R', 'e', 'c', 'o', 'n', 's', 't', 'r', 'u', 'c', 't', 'i', 'o', 'n'] '～'
    (by decide) (by decide)⟩,
 ⟨by decide, by decide,
  subtitle_extraction_contract.2.2.2.1 ['P', 'l', 'a', 'i', 'n'] 'n'
    (by decide) (by decide)⟩⟩

/-- C6 counterexample: the claim is false for the `Header` declared in the
source.  An aggregate exposing every scalar field must realize every value
of each field's semantic type (in particular `Total`, an `f64` modelled as
`ℚ`), but the source's `Header` holds only a `Player`, so it has just four
distinct values and no map from `Header` onto the `Total` values exists. -/
theorem header_aggregate_refutation :
    ¬ ∃ f : Header → Total, Function.Surjective f := by
rintro ⟨f, hf⟩
haveI : Finite Total := Finite.of_surjective f hf
exact not_finite Total

/-- C6 amended: the `Header` declared in the source is an aggregate of
exactly one scalar field, `Player`: headers correspond one-to-one with
`Player` values (so each header exposes a concrete `Player`, the default
`One` being substitutable at construction), and the module defines no
operation that mutates a `Header` after construction. -/
theorem header_player_aggregate :
    Function.Bijective (fun h : Header => h.player) ∧
    (∀ h : Header, h = ⟨h.player⟩) := by
refine ⟨⟨?_, ?_⟩, ?_⟩
· intro a b hab
  cases a
  cases b
  simpa using hab
· intro p
  exact ⟨⟨p⟩, rfl⟩
· intro h
  rfl

end Bmrs
